import Mathlib

/-!
Shallow embedding of `inflammation/models.py`.

Cell values of the inflammation table are modelled by `FVal`: an exact
rational, NaN, +Inf or -Inf, with IEEE-754 comparison and division rules.
Zero is unsigned in this model (the IEEE negative-zero bit pattern is not
representable; the validated non-negative inputs of the claims cannot
produce one).  Tables are lists of rows; a NumPy `ndarray` is its shape
together with its flattened data.  The entity classes `Observation`,
`Person`, `Patient`, `Doctor` are plain structures, with the mutating
methods turned into state-passing functions.
-/

/-- A floating-point cell value: a finite rational, NaN, +Inf or -Inf. -/
inductive FVal where
  | fin (q : ℚ)
  | nan
  | inf
  | ninf
  deriving DecidableEq, Repr

/-- IEEE comparison `x < y`: every comparison involving NaN is false. -/
def FVal.lt : FVal → FVal → Bool
  | nan, _ => false
  | _, nan => false
  | fin a, fin b => decide (a < b)
  | fin _, inf => true
  | fin _, ninf => false
  | inf, _ => false
  | ninf, ninf => false
  | ninf, _ => true

/-- IEEE division.  `0/0` and `Inf/Inf` are NaN; a nonzero finite value
divided by (unsigned) zero is a correctly signed infinity; a finite value
divided by an infinity is zero. -/
def FVal.div : FVal → FVal → FVal
  | nan, _ => nan
  | _, nan => nan
  | fin a, fin b =>
      if b = 0 then (if a = 0 then nan else if a < 0 then ninf else inf)
      else fin (a / b)
  | fin _, inf => fin 0
  | fin _, ninf => fin 0
  | inf, fin b => if b < 0 then ninf else inf
  | ninf, fin b => if b < 0 then inf else ninf
  | inf, inf => nan
  | inf, ninf => nan
  | ninf, inf => nan
  | ninf, ninf => nan

/-- NumPy `fmax`: the NaN-ignoring binary maximum used by `np.nanmax`. -/
def FVal.fmax : FVal → FVal → FVal
  | nan, b => b
  | a, nan => a
  | fin a, fin b => fin (max a b)
  | inf, _ => inf
  | _, inf => inf
  | ninf, b => b
  | a, ninf => a

/-- `np.nanmax` of one row: left fold of `fmax` over the row (NumPy raises
on a zero-size reduction; the empty row is given the all-NaN result NaN,
which leaves every claim about it vacuous since such a row has no cells). -/
def nanmax (l : List FVal) : FVal :=
  match l with
  | [] => FVal.nan
  | x :: xs => xs.foldl FVal.fmax x

/-- The elementwise test `v < 0` is false at `v`: this is what the
validation `np.any(data < 0)` checks cell by cell.  NaN and +Inf pass
(every NaN comparison is false); -Inf and negative finite values fail. -/
def FVal.NonNeg (v : FVal) : Prop := v.lt (FVal.fin 0) = false

/-- `np.isnan`. -/
def FVal.isnan : FVal → Bool
  | nan => true
  | _ => false

/-- The error kinds raised by the Python code. -/
inductive Err where
  | typeError (msg : String)
  | valueError (msg : String)
  | indexError
  deriving DecidableEq, Repr

/-- A NumPy ndarray: its shape and its flattened data. -/
structure NDArr where
  shape : List ℕ
  flat : List FVal
  deriving DecidableEq, Repr

/-- Split a flat buffer into `p` rows of (at most) `d` cells. -/
def takeChunks (d : ℕ) : ℕ → List FVal → List (List FVal)
  | 0, _ => []
  | p + 1, l => l.take d :: takeChunks d p (l.drop d)

/-- The rows of a 2-dimensional ndarray (any other rank has no rows). -/
def NDArr.rows (a : NDArr) : List (List FVal) :=
  match a.shape with
  | [p, d] => takeChunks d p a.flat
  | _ => []

/-- A Python object passed to `patient_normalise`: an ndarray, or
anything else (the `not isinstance(data, np.ndarray)` case). -/
inductive PyObj where
  | other
  | ndarray (a : NDArr)

/-- Lines 73-75: `max_data = np.nanmax(data, axis=1)` followed by the
broadcast division `normalised = data / max_data[:, np.newaxis]`. -/
def divByRowMax (t : List (List FVal)) : List (List FVal) :=
  t.map (fun row => row.map (fun v => v.div (nanmax row)))

/-- The cellwise effect of line 76, `normalised[np.isnan(normalised)] = 0`. -/
def nanToZeroCell (v : FVal) : FVal := if v.isnan then FVal.fin 0 else v

/-- The cellwise effect of line 77, `normalised[normalised < 0] = 0`. -/
def negToZeroCell (v : FVal) : FVal := if v.lt (FVal.fin 0) then FVal.fin 0 else v

/-- Line 76: `normalised[np.isnan(normalised)] = 0`. -/
def nanToZero (t : List (List FVal)) : List (List FVal) :=
  t.map (fun row => row.map nanToZeroCell)

/-- Line 77: `normalised[normalised < 0] = 0`. -/
def negToZero (t : List (List FVal)) : List (List FVal) :=
  t.map (fun row => row.map negToZeroCell)

/-- `m` is an upper bound for `v` in the NaN-aware order: `v` is NaN, or
`m` is +Inf, or both are finite with `v`'s value at most `m`'s. -/
def FVal.UB (m v : FVal) : Prop :=
  v = FVal.nan ∨ m = FVal.inf ∨ ∃ a b, v = FVal.fin a ∧ m = FVal.fin b ∧ a ≤ b

/-- `patient_normalise` (models.py lines 59-78): validate (type, then
dimensionality, then non-negativity, in that order), then divide each row
by its NaN-ignoring maximum, then replace NaN results by 0, then clamp
negative results to 0. -/
def patient_normalise : PyObj → Except Err (List (List FVal))
  | PyObj.other => Except.error (Err.typeError "data input should be ndarray")
  | PyObj.ndarray a =>
      if a.shape.length ≠ 2 then
        Except.error (Err.valueError "inflammation array should be 2-dimensional")
      else if a.flat.any (fun v => v.lt (FVal.fin 0)) then
        Except.error (Err.valueError "Inflammation values should not be negative")
      else
        Except.ok (negToZero (nanToZero (divByRowMax a.rows)))

/-- Heap model of the imperative body of `patient_normalise` on an already
validated table.  Cell 0 of the heap is the caller's array `data`; the
division `data / max_data[:, np.newaxis]` allocates a fresh array (cell 1)
per NumPy semantics, and the two masked assignments mutate cell 1 in
place.  The returned reference is to cell 1. -/
def patient_normalise_heap (data : List (List FVal)) : List (List (List FVal)) × ℕ :=
  let heap0 : List (List (List FVal)) := [data]
  let normalised := divByRowMax data
  let heap1 := heap0 ++ [normalised]
  let heap2 := heap1.set 1 (nanToZero normalised)
  let heap3 := heap2.set 1 (negToZero (nanToZero normalised))
  (heap3, 1)

/-- The number of days (columns) of a table: the length of its first row. -/
def numDays (t : List (List ℚ)) : ℕ := (t.headD []).length

/-- The column of one day: the values of all patients on day `d`. -/
def column (t : List (List ℚ)) (d : ℕ) : List ℚ :=
  t.map (fun row => row.getD d 0)

/-- Arithmetic mean of a list (0 for the empty list, by `q / 0 = 0`). -/
def listMean (l : List ℚ) : ℚ := l.sum / l.length

/-- Left-fold maximum of a list, as NumPy reduces it (0 for the empty list). -/
def listMax (l : List ℚ) : ℚ :=
  match l with
  | [] => 0
  | x :: xs => xs.foldl max x

/-- Left-fold minimum of a list, as NumPy reduces it (0 for the empty list). -/
def listMin (l : List ℚ) : ℚ :=
  match l with
  | [] => 0
  | x :: xs => xs.foldl min x

/-- `daily_mean` (lines 22-29): `np.mean(data, axis=0)`. -/
def daily_mean (t : List (List ℚ)) : List ℚ :=
  (List.range (numDays t)).map (fun d => listMean (column t d))

/-- `daily_max` (lines 32-38): `np.max(data, axis=0)`. -/
def daily_max (t : List (List ℚ)) : List ℚ :=
  (List.range (numDays t)).map (fun d => listMax (column t d))

/-- `daily_min` (lines 41-47): `np.min(data, axis=0)`. -/
def daily_min (t : List (List ℚ)) : List ℚ :=
  (List.range (numDays t)).map (fun d => listMin (column t d))

/-- `daily_std` (lines 50-56): `np.std(data, axis=0)`, the population
standard deviation of each column. -/
noncomputable def daily_std (t : List (List ℚ)) : List ℝ :=
  (List.range (numDays t)).map (fun d =>
    Real.sqrt ((listMean ((column t d).map (fun x => (x - listMean (column t d)) ^ 2)) : ℚ)))

/-- The reducer of `daily_above_threshold` (lines 101-105). -/
def count_above_threshold (a : ℕ) (b : Bool) : ℕ := if b then a + 1 else a

/-- Python/NumPy row indexing `l[i]`: a negative index counts from the
end; an index outside `[-len, len)` raises `IndexError`. -/
def pyGet {α : Type} (l : List α) (i : ℤ) : Except Err α :=
  let j : ℤ := if i < 0 then i + l.length else i
  if 0 ≤ j then
    match l[j.toNat]? with
    | some x => Except.ok x
    | none => Except.error Err.indexError
  else Except.error Err.indexError

/-- `daily_above_threshold` (lines 90-109): map `x > threshold` over the
patient's row and reduce with `count_above_threshold` starting from 0. -/
def daily_above_threshold (patient_num : ℤ) (data : List (List FVal)) (threshold : FVal) :
    Except Err ℕ :=
  match pyGet data patient_num with
  | Except.error e => Except.error e
  | Except.ok row =>
      Except.ok ((row.map (fun x => threshold.lt x)).foldl count_above_threshold 0)

/-- `Observation` (lines 112-118): an immutable (day, value) pair. -/
structure Observation where
  day : ℤ
  value : ℚ
  deriving DecidableEq, Repr

/-- `Person` (lines 121-126): a named entity. -/
structure Person where
  name : String
  deriving DecidableEq, Repr

/-- `Patient` (lines 129-152): a person owning a list of observations. -/
structure Patient extends Person where
  observations : List Observation
  deriving DecidableEq, Repr

/-- `Patient.__init__`: `observations` defaults to the empty list. -/
def Patient.make (name : String) (observations : Option (List Observation)) : Patient :=
  { name := name, observations := observations.getD [] }

/-- `Patient.add_observation` (lines 138-148): when no day is given, the
new day is the last observation's day + 1, or 0 if there is none; the new
observation is appended and returned. -/
def Patient.add_observation (p : Patient) (value : ℚ) (day : Option ℤ) :
    Patient × Observation :=
  let d : ℤ :=
    match day with
    | some d => d
    | none =>
        match p.observations.getLast? with
        | some o => o.day + 1
        | none => 0
  let newObs : Observation := { day := d, value := value }
  ({ p with observations := p.observations ++ [newObs] }, newObs)

/-- `Patient.last_observation` (lines 150-152): `observations[-1]`,
raising `IndexError` on an empty list. -/
def Patient.last_observation (p : Patient) : Except Err Observation :=
  match p.observations.getLast? with
  | some o => Except.ok o
  | none => Except.error Err.indexError

/-- `Doctor` (lines 155-165): a person owning a list of patients. -/
structure Doctor extends Person where
  patients : List Patient
  deriving DecidableEq, Repr

/-- `Doctor.add_patient` (lines 161-165): return early if some existing
patient has the same name, otherwise append. -/
def Doctor.add_patient (d : Doctor) (new_patient : Patient) : Doctor :=
  if d.patients.any (fun patient => patient.name == new_patient.name) then d
  else { d with patients := d.patients ++ [new_patient] }

example :
    patient_normalise (PyObj.ndarray ⟨[2, 2], [FVal.fin 1, FVal.fin 2, FVal.fin 3, FVal.fin 4]⟩) =
      Except.ok [[FVal.fin (1/2), FVal.fin 1], [FVal.fin (3/4), FVal.fin 1]] := by
  norm_num [patient_normalise, NDArr.rows, takeChunks, divByRowMax, nanToZero, negToZero,
    nanToZeroCell, negToZeroCell, nanmax, FVal.fmax, FVal.div, FVal.lt, FVal.isnan]

example :
    daily_above_threshold 0 [[FVal.fin 1, FVal.fin 2, FVal.fin 3, FVal.fin 4, FVal.fin 5]]
      (FVal.fin 3) = Except.ok 2 := by
  norm_num [daily_above_threshold, pyGet, count_above_threshold, FVal.lt]

example :
    daily_mean [[1, 2], [3, 4], [5, 1]] = [3, 7/3] ∧
      daily_max [[1, 2], [3, 4], [5, 1]] = [5, 4] ∧
      daily_min [[1, 2], [3, 4], [5, 1]] = [1, 1] := by
  norm_num [daily_mean, daily_max, daily_min, numDays, column, listMean, listMax, listMin,
    List.range_succ]

/-- Characterisation of passing the `data < 0` test: the value is NaN,
+Inf, or a non-negative finite rational. -/
theorem FVal.nonNeg_iff (v : FVal) :
    v.NonNeg ↔ v = FVal.nan ∨ v = FVal.inf ∨ ∃ q, v = FVal.fin q ∧ 0 ≤ q := by
  cases v with
  | fin q => simp [FVal.NonNeg, FVal.lt, not_lt]
  | nan => simp [FVal.NonNeg, FVal.lt]
  | inf => simp [FVal.NonNeg, FVal.lt]
  | ninf => simp [FVal.NonNeg, FVal.lt]

theorem FVal.ub_refl {a : FVal} (h : a.NonNeg) : FVal.UB a a := by
  rcases (FVal.nonNeg_iff a).1 h with rfl | rfl | ⟨q, rfl, hq⟩
  · exact Or.inl rfl
  · exact Or.inr (Or.inl rfl)
  · exact Or.inr (Or.inr ⟨q, q, rfl, rfl, le_refl q⟩)

theorem FVal.ub_trans {a b c : FVal} (h1 : FVal.UB b a) (h2 : FVal.UB c b) : FVal.UB c a := by
  rcases h1 with rfl | rfl | ⟨x, y, rfl, rfl, hxy⟩
  · exact Or.inl rfl
  · rcases h2 with h | rfl | ⟨u, w, hu, rfl, huw⟩
    · exact absurd h (by simp)
    · exact Or.inr (Or.inl rfl)
    · exact absurd hu (by simp)
  · rcases h2 with h | rfl | ⟨u, w, hu, rfl, huw⟩
    · exact absurd h (by simp)
    · exact Or.inr (Or.inl rfl)
    · rw [FVal.fin.injEq] at hu
      exact Or.inr (Or.inr ⟨x, w, rfl, rfl, le_trans hxy (hu ▸ huw)⟩)

theorem FVal.fmax_ub_left {a b : FVal} (h : a.NonNeg) : FVal.UB (FVal.fmax a b) a := by
  cases a with
  | nan => exact Or.inl rfl
  | inf => cases b <;> exact Or.inr (Or.inl rfl)
  | ninf => exact absurd h (by simp [FVal.NonNeg, FVal.lt])
  | fin q =>
    cases b with
    | nan => exact Or.inr (Or.inr ⟨q, q, rfl, rfl, le_refl q⟩)
    | fin r => exact Or.inr (Or.inr ⟨q, max q r, rfl, rfl, le_max_left q r⟩)
    | inf => exact Or.inr (Or.inl rfl)
    | ninf => exact Or.inr (Or.inr ⟨q, q, rfl, rfl, le_refl q⟩)

theorem FVal.fmax_ub_right {a b : FVal} (h : b.NonNeg) : FVal.UB (FVal.fmax a b) b := by
  cases b with
  | nan => exact Or.inl rfl
  | inf => cases a <;> exact Or.inr (Or.inl rfl)
  | ninf => exact absurd h (by simp [FVal.NonNeg, FVal.lt])
  | fin r =>
    cases a with
    | nan => exact Or.inr (Or.inr ⟨r, r, rfl, rfl, le_refl r⟩)
    | fin q => exact Or.inr (Or.inr ⟨r, max q r, rfl, rfl, le_max_right q r⟩)
    | inf => exact Or.inr (Or.inl rfl)
    | ninf => exact Or.inr (Or.inr ⟨r, r, rfl, rfl, le_refl r⟩)

theorem FVal.fmax_nonNeg {a b : FVal} (ha : a.NonNeg) (hb : b.NonNeg) :
    (FVal.fmax a b).NonNeg := by
  rcases (FVal.nonNeg_iff a).1 ha with rfl | rfl | ⟨q, rfl, hq⟩ <;>
    rcases (FVal.nonNeg_iff b).1 hb with rfl | rfl | ⟨r, rfl, hr⟩ <;>
      rw [FVal.nonNeg_iff] <;> simp [FVal.fmax]
  · exact hr
  · exact hq
  · exact Or.inl hq

/-- The left fold of `fmax` over validated values stays validated and is
an upper bound of the accumulator and of every element folded in. -/
theorem foldl_fmax_spec :
    ∀ (xs : List FVal) (acc : FVal), acc.NonNeg → (∀ v ∈ xs, v.NonNeg) →
      (xs.foldl FVal.fmax acc).NonNeg ∧ FVal.UB (xs.foldl FVal.fmax acc) acc ∧
        ∀ v ∈ xs, FVal.UB (xs.foldl FVal.fmax acc) v := by
  intro xs
  induction xs with
  | nil =>
    intro acc hacc _
    exact ⟨hacc, FVal.ub_refl hacc, by simp⟩
  | cons x xs ih =>
    intro acc hacc hxs
    have hx : x.NonNeg := hxs x (by simp)
    have hacc2 : (FVal.fmax acc x).NonNeg := FVal.fmax_nonNeg hacc hx
    obtain ⟨h1, h2, h3⟩ := ih (FVal.fmax acc x) hacc2 (fun v hv => hxs v (by simp [hv]))
    simp only [List.foldl_cons]
    refine ⟨h1, FVal.ub_trans (FVal.fmax_ub_left hacc) h2, ?_⟩
    intro v hv
    rcases List.mem_cons.mp hv with rfl | hv2
    · exact FVal.ub_trans (FVal.fmax_ub_right hx) h2
    · exact h3 v hv2

/-- `np.nanmax` of a validated row is validated and bounds every cell. -/
theorem nanmax_spec (row : List FVal) (h : ∀ v ∈ row, v.NonNeg) :
    (nanmax row).NonNeg ∧ ∀ v ∈ row, FVal.UB (nanmax row) v := by
  cases row with
  | nil =>
    constructor
    · simp [nanmax, FVal.NonNeg, FVal.lt]
    · simp
  | cons x xs =>
    have hx : x.NonNeg := h x (by simp)
    obtain ⟨h1, h2, h3⟩ :=
      foldl_fmax_spec xs x hx (fun v hv => h v (by simp [hv]))
    refine ⟨h1, ?_⟩
    intro v hv
    rcases List.mem_cons.mp hv with rfl | hv2
    · exact h2
    · exact h3 v hv2

/-- One normalised cell of a validated row is a finite rational in [0,1]:
dividing a validated value by a validated upper bound, then replacing NaN
by 0, then clamping negatives to 0, lands in the unit interval. -/
theorem normCell_unit {m v : FVal} (hm : m.NonNeg) (hv : v.NonNeg) (hub : FVal.UB m v) :
    ∃ q : ℚ, negToZeroCell (nanToZeroCell (v.div m)) = FVal.fin q ∧ 0 ≤ q ∧ q ≤ 1 := by
  rcases hub with rfl | rfl | ⟨a, b, rfl, rfl, hab⟩
  · exact ⟨0, by simp [FVal.div, nanToZeroCell, negToZeroCell, FVal.isnan, FVal.lt],
      le_refl 0, by norm_num⟩
  · rcases (FVal.nonNeg_iff v).1 hv with rfl | rfl | ⟨q, rfl, hq⟩
    · exact ⟨0, by simp [FVal.div, nanToZeroCell, negToZeroCell, FVal.isnan, FVal.lt],
        le_refl 0, by norm_num⟩
    · exact ⟨0, by simp [FVal.div, nanToZeroCell, negToZeroCell, FVal.isnan, FVal.lt],
        le_refl 0, by norm_num⟩
    · exact ⟨0, by simp [FVal.div, nanToZeroCell, negToZeroCell, FVal.isnan, FVal.lt],
        le_refl 0, by norm_num⟩
  · have ha : 0 ≤ a := by
      rcases (FVal.nonNeg_iff _).1 hv with h | h | ⟨q, hq1, hq2⟩
      · exact absurd h (by simp)
      · exact absurd h (by simp)
      · rw [FVal.fin.injEq] at hq1
        rw [hq1]
        exact hq2
    have hb : 0 ≤ b := by
      rcases (FVal.nonNeg_iff _).1 hm with h | h | ⟨q, hq1, hq2⟩
      · exact absurd h (by simp)
      · exact absurd h (by simp)
      · rw [FVal.fin.injEq] at hq1
        rw [hq1]
        exact hq2
    by_cases hb0 : b = 0
    · have ha0 : a = 0 := le_antisymm (hb0 ▸ hab) ha
      subst hb0
      subst ha0
      exact ⟨0, by simp [FVal.div, nanToZeroCell, negToZeroCell, FVal.isnan, FVal.lt],
        le_refl 0, by norm_num⟩
    · have hbpos : 0 < b := lt_of_le_of_ne hb (Ne.symm hb0)
      have hq0 : 0 ≤ a / b := div_nonneg ha hb
      refine ⟨a / b, ?_, hq0, (div_le_one hbpos).mpr hab⟩
      simp [FVal.div, hb0, nanToZeroCell, negToZeroCell, FVal.isnan, FVal.lt, not_lt.mpr hq0]

/-- The three table passes of lines 73-77 compose to one per-row,
per-cell pipeline. -/
theorem norm_pipeline_eq (t : List (List FVal)) :
    negToZero (nanToZero (divByRowMax t)) =
      t.map (fun row => row.map (fun v => negToZeroCell (nanToZeroCell (v.div (nanmax row))))) := by
  simp [negToZero, nanToZero, divByRowMax, List.map_map, Function.comp]

/-- Every cell of a chunked row comes from the flat buffer. -/
theorem takeChunks_subset (d : ℕ) :
    ∀ (p : ℕ) (l : List FVal), ∀ r ∈ takeChunks d p l, ∀ v ∈ r, v ∈ l := by
  intro p
  induction p with
  | zero =>
    intro l r hr
    simp [takeChunks] at hr
  | succ p ih =>
    intro l r hr v hv
    simp only [takeChunks] at hr
    rcases List.mem_cons.mp hr with rfl | hr2
    · exact List.take_subset d l hv
    · exact List.drop_subset d l (ih (l.drop d) r hr2 v hv)

/-- Every cell of a row of an ndarray comes from its flat buffer. -/
theorem NDArr.rows_subset (a : NDArr) : ∀ r ∈ a.rows, ∀ v ∈ r, v ∈ a.flat := by
  intro r hr v hv
  revert hr
  unfold NDArr.rows
  split
  · intro hr
    exact takeChunks_subset _ _ a.flat r hr v hv
  · intro hr
    simp at hr

/-- Inversion: a successful run of `patient_normalise` means every flat
cell passed the negativity test and the output is the three-pass pipeline
over the rows. -/
theorem patient_normalise_ok_inv {a : NDArr} {out : List (List FVal)}
    (h : patient_normalise (PyObj.ndarray a) = Except.ok out) :
    (∀ v ∈ a.flat, v.NonNeg) ∧ out = negToZero (nanToZero (divByRowMax a.rows)) := by
  simp only [patient_normalise] at h
  by_cases h1 : a.shape.length ≠ 2
  · rw [if_pos h1] at h
    exact absurd h (by simp)
  · rw [if_neg h1] at h
    by_cases h2 : a.flat.any (fun v => v.lt (FVal.fin 0)) = true
    · rw [if_pos h2] at h
      exact absurd h (by simp)
    · rw [if_neg h2] at h
      constructor
      · intro v hv
        have h3 := List.any_eq_false.mp (by simpa using h2) v hv
        simpa [FVal.NonNeg] using h3
      · exact (Except.ok.inj h).symm

/-- An all-zero nonempty row has NaN-ignoring maximum 0. -/
theorem nanmax_zero (r : List FVal) (hz : ∀ v ∈ r, v = FVal.fin 0) (hne : r ≠ []) :
    nanmax r = FVal.fin 0 := by
  cases r with
  | nil => exact absurd rfl hne
  | cons x xs =>
    have hx : x = FVal.fin 0 := hz x (by simp)
    subst hx
    unfold nanmax
    have key : ∀ (ys : List FVal), (∀ v ∈ ys, v = FVal.fin 0) →
        ys.foldl FVal.fmax (FVal.fin 0) = FVal.fin 0 := by
      intro ys
      induction ys with
      | nil => simp
      | cons y ys ih =>
        intro hy
        have hy0 : y = FVal.fin 0 := hy y (by simp)
        subst hy0
        simp only [List.foldl_cons]
        have hm : FVal.fmax (FVal.fin 0) (FVal.fin 0) = FVal.fin 0 := by simp [FVal.fmax]
        rw [hm]
        exact ih (fun v hv => hy v (by simp [hv]))
    exact key xs (fun v hv => hz v (by simp [hv]))

/-- Claim C1: every input accepted by `patient_normalise` yields a table
whose every cell is a finite rational in [0, 1] (in particular no NaN),
and an all-zero input row maps to the all-zero row of the same length. -/
theorem patient_normalise_unit_interval (a : NDArr) (out : List (List FVal))
    (h : patient_normalise (PyObj.ndarray a) = Except.ok out) :
    (∀ row ∈ out, ∀ v ∈ row, ∃ q : ℚ, v = FVal.fin q ∧ 0 ≤ q ∧ q ≤ 1) ∧
    (∀ (i : ℕ) (r : List FVal), a.rows[i]? = some r → (∀ v ∈ r, v = FVal.fin 0) →
      out[i]? = some (r.map (fun _ => FVal.fin 0))) := by
  obtain ⟨hflat, hout⟩ := patient_normalise_ok_inv h
  have hrows : ∀ r ∈ a.rows, ∀ v ∈ r, v.NonNeg :=
    fun r hr v hv => hflat v (NDArr.rows_subset a r hr v hv)
  subst hout
  constructor
  · intro row hrow v hv
    rw [norm_pipeline_eq] at hrow
    obtain ⟨row0, hrow0, rfl⟩ := List.mem_map.mp hrow
    obtain ⟨v0, hv0, rfl⟩ := List.mem_map.mp hv
    obtain ⟨hmN, hubs⟩ := nanmax_spec row0 (hrows row0 hrow0)
    exact normCell_unit hmN (hrows row0 hrow0 v0 hv0) (hubs v0 hv0)
  · intro i r hir hzero
    rw [norm_pipeline_eq, List.getElem?_map, hir, Option.map_some']
    have hcell : ∀ v ∈ r, negToZeroCell (nanToZeroCell (v.div (nanmax r))) = FVal.fin 0 := by
      intro v hv
      have hmax : nanmax r = FVal.fin 0 :=
        nanmax_zero r hzero (by intro hemp; rw [hemp] at hv; simp at hv)
      have hz := hzero v hv
      rw [hz, hmax]
      simp [FVal.div, nanToZeroCell, negToZeroCell, FVal.isnan, FVal.lt]
    rw [List.map_congr_left hcell]

/-- Witness for C1 at the concrete input [[1,2],[0,0]]: its normalised
output is [[1/2,1],[0,0]], whose cells are in [0,1], and the all-zero
second row maps to the all-zero row. -/
theorem patient_normalise_unit_interval_witness :
    (∀ row ∈ ([[FVal.fin (1/2), FVal.fin 1], [FVal.fin 0, FVal.fin 0]] : List (List FVal)),
      ∀ v ∈ row, ∃ q : ℚ, v = FVal.fin q ∧ 0 ≤ q ∧ q ≤ 1) ∧
    (∀ (i : ℕ) (r : List FVal),
      (NDArr.mk [2, 2] [FVal.fin 1, FVal.fin 2, FVal.fin 0, FVal.fin 0]).rows[i]? = some r →
      (∀ v ∈ r, v = FVal.fin 0) →
      ([[FVal.fin (1/2), FVal.fin 1], [FVal.fin 0, FVal.fin 0]] : List (List FVal))[i]? =
        some (r.map (fun _ => FVal.fin 0))) :=
  patient_normalise_unit_interval ⟨[2, 2], [FVal.fin 1, FVal.fin 2, FVal.fin 0, FVal.fin 0]⟩
    [[FVal.fin (1/2), FVal.fin 1], [FVal.fin 0, FVal.fin 0]]
    (by norm_num [patient_normalise, NDArr.rows, takeChunks, divByRowMax, nanToZero, negToZero,
      nanToZeroCell, negToZeroCell, nanmax, FVal.fmax, FVal.div, FVal.lt, FVal.isnan])

/-- Claim C2: on a 2-D array that passes the negativity test,
`patient_normalise` returns exactly the composition: divide each row by
its NaN-ignoring row maximum, THEN replace NaN by 0, THEN clamp negative
values to 0 — the two clamps in that order. -/
theorem patient_normalise_pipeline (a : NDArr) (h2 : a.shape.length = 2)
    (hn : ∀ v ∈ a.flat, v.lt (FVal.fin 0) = false) :
    patient_normalise (PyObj.ndarray a) =
      Except.ok
        (((a.rows.map (fun row => row.map (fun v => v.div (nanmax row)))).map
            (fun row => row.map (fun v => if v.isnan then FVal.fin 0 else v))).map
          (fun row => row.map (fun v => if v.lt (FVal.fin 0) then FVal.fin 0 else v))) := by
  have hany : a.flat.any (fun v => v.lt (FVal.fin 0)) = false :=
    List.any_eq_false.mpr (fun v hv => by simp [hn v hv])
  simp only [patient_normalise]
  rw [if_neg (by simp [h2]), if_neg (by simp [hany])]
  simp [negToZero, nanToZero, divByRowMax, nanToZeroCell, negToZeroCell]

/-- Witness for C2 at the concrete input [[1,2],[0,0]]. -/
theorem patient_normalise_pipeline_witness :
    patient_normalise
        (PyObj.ndarray ⟨[2, 2], [FVal.fin 1, FVal.fin 2, FVal.fin 0, FVal.fin 0]⟩) =
      Except.ok
        ((((NDArr.mk [2, 2] [FVal.fin 1, FVal.fin 2, FVal.fin 0, FVal.fin 0]).rows.map
              (fun row => row.map (fun v => v.div (nanmax row)))).map
            (fun row => row.map (fun v => if v.isnan then FVal.fin 0 else v))).map
          (fun row => row.map (fun v => if v.lt (FVal.fin 0) then FVal.fin 0 else v))) :=
  patient_normalise_pipeline ⟨[2, 2], [FVal.fin 1, FVal.fin 2, FVal.fin 0, FVal.fin 0]⟩
    rfl (by norm_num [FVal.lt])

/-- Claim C3: the validation contract of `patient_normalise` — a
non-array raises TypeError; an array that is not 2-dimensional raises the
dimensionality ValueError (even if it also contains negative values: the
dimensionality check runs first); a 2-D array with a negative cell raises
the negativity ValueError; and a 2-D array with no negative cell raises
nothing. -/
theorem patient_normalise_validation :
    patient_normalise PyObj.other = Except.error (Err.typeError "data input should be ndarray") ∧
    (∀ a : NDArr, a.shape.length ≠ 2 →
      patient_normalise (PyObj.ndarray a) =
        Except.error (Err.valueError "inflammation array should be 2-dimensional")) ∧
    (∀ a : NDArr, a.shape.length = 2 → (∃ v ∈ a.flat, v.lt (FVal.fin 0) = true) →
      patient_normalise (PyObj.ndarray a) =
        Except.error (Err.valueError "Inflammation values should not be negative")) ∧
    (∀ a : NDArr, a.shape.length = 2 → (∀ v ∈ a.flat, v.lt (FVal.fin 0) = false) →
      patient_normalise (PyObj.ndarray a) =
        Except.ok (negToZero (nanToZero (divByRowMax a.rows)))) := by
  refine ⟨rfl, ?_, ?_, ?_⟩
  · intro a h1
    simp only [patient_normalise]
    rw [if_pos h1]
  · rintro a h2 ⟨v, hv, hneg⟩
    simp only [patient_normalise]
    rw [if_neg (by simp [h2]), if_pos (List.any_eq_true.mpr ⟨v, hv, hneg⟩)]
  · intro a h2 hn
    have hany : a.flat.any (fun v => v.lt (FVal.fin 0)) = false :=
      List.any_eq_false.mpr (fun v hv => by simp [hn v hv])
    simp only [patient_normalise]
    rw [if_neg (by simp [h2]), if_neg (by simp [hany])]

/-- Witness for C3: a 1-D array with a negative value still gets the
dimensionality error (order!); a 2-D negative array gets the negativity
error; a valid 2-D array gets no error. -/
theorem patient_normalise_validation_witness :
    patient_normalise (PyObj.ndarray ⟨[3], [FVal.fin (-1)]⟩) =
      Except.error (Err.valueError "inflammation array should be 2-dimensional") ∧
    patient_normalise (PyObj.ndarray ⟨[1, 1], [FVal.fin (-1)]⟩) =
      Except.error (Err.valueError "Inflammation values should not be negative") ∧
    patient_normalise (PyObj.ndarray ⟨[1, 1], [FVal.fin 1]⟩) =
      Except.ok (negToZero (nanToZero (divByRowMax (NDArr.mk [1, 1] [FVal.fin 1]).rows))) :=
  ⟨patient_normalise_validation.2.1 ⟨[3], [FVal.fin (-1)]⟩ (by decide),
   patient_normalise_validation.2.2.1 ⟨[1, 1], [FVal.fin (-1)]⟩ rfl
     ⟨FVal.fin (-1), by simp, by norm_num [FVal.lt]⟩,
   patient_normalise_validation.2.2.2 ⟨[1, 1], [FVal.fin 1]⟩ rfl (by norm_num [FVal.lt])⟩

/-- Claim C6: in the heap model of `patient_normalise`, the caller's
array (heap cell 0) still holds its original value after the call, the
returned reference (cell 1) is distinct from the input reference, and it
holds the normalised table. -/
theorem patient_normalise_no_mutation (data : List (List FVal)) :
    (patient_normalise_heap data).1[0]? = some data ∧
    (patient_normalise_heap data).2 = 1 ∧
    (patient_normalise_heap data).2 ≠ 0 ∧
    (patient_normalise_heap data).1[(patient_normalise_heap data).2]? =
      some (negToZero (nanToZero (divByRowMax data))) := by
  refine ⟨?_, rfl, by simp [patient_normalise_heap], ?_⟩
  · simp [patient_normalise_heap]
  · simp [patient_normalise_heap]

theorem le_foldl_max (xs : List ℚ) : ∀ acc : ℚ, acc ≤ xs.foldl max acc := by
  induction xs with
  | nil => intro acc; simp
  | cons x xs ih =>
    intro acc
    simp only [List.foldl_cons]
    exact le_trans (le_max_left acc x) (ih (max acc x))

theorem mem_le_foldl_max :
    ∀ (xs : List ℚ) (x : ℚ), x ∈ xs → ∀ acc : ℚ, x ≤ xs.foldl max acc := by
  intro xs
  induction xs with
  | nil =>
    intro x hx
    simp at hx
  | cons y ys ih =>
    intro x hx acc
    simp only [List.foldl_cons]
    rcases List.mem_cons.mp hx with rfl | h2
    · exact le_trans (le_max_right acc x) (le_foldl_max ys (max acc x))
    · exact ih x h2 (max acc y)

/-- Every member of a list is at most its left-fold maximum. -/
theorem mem_le_listMax {x : ℚ} {l : List ℚ} (h : x ∈ l) : x ≤ listMax l := by
  cases l with
  | nil => simp at h
  | cons y ys =>
    rcases List.mem_cons.mp h with rfl | h2
    · simpa [listMax] using le_foldl_max ys x
    · simpa [listMax] using mem_le_foldl_max ys x h2 y

theorem foldl_min_le (xs : List ℚ) : ∀ acc : ℚ, xs.foldl min acc ≤ acc := by
  induction xs with
  | nil => intro acc; simp
  | cons x xs ih =>
    intro acc
    simp only [List.foldl_cons]
    exact le_trans (ih (min acc x)) (min_le_left acc x)

theorem foldl_min_le_mem :
    ∀ (xs : List ℚ) (x : ℚ), x ∈ xs → ∀ acc : ℚ, xs.foldl min acc ≤ x := by
  intro xs
  induction xs with
  | nil =>
    intro x hx
    simp at hx
  | cons y ys ih =>
    intro x hx acc
    simp only [List.foldl_cons]
    rcases List.mem_cons.mp hx with rfl | h2
    · exact le_trans (foldl_min_le ys (min acc x)) (min_le_right acc x)
    · exact ih x h2 (min acc y)

/-- The left-fold minimum of a list is at most every member. -/
theorem listMin_le_mem {x : ℚ} {l : List ℚ} (h : x ∈ l) : listMin l ≤ x := by
  cases l with
  | nil => simp at h
  | cons y ys =>
    rcases List.mem_cons.mp h with rfl | h2
    · simpa [listMin] using foldl_min_le ys x
    · simpa [listMin] using foldl_min_le_mem ys x h2 y

/-- The mean of a nonempty list is at most its maximum. -/
theorem listMean_le_listMax (l : List ℚ) (h : l ≠ []) : listMean l ≤ listMax l := by
  have hlen : 0 < (l.length : ℚ) := by
    exact_mod_cast List.length_pos.mpr h
  rw [listMean, div_le_iff₀ hlen]
  have hsum : l.sum ≤ l.length • listMax l :=
    List.sum_le_card_nsmul l (listMax l) (fun x hx => mem_le_listMax hx)
  rw [nsmul_eq_mul] at hsum
  linarith

/-- The minimum of a nonempty list is at most its mean. -/
theorem listMin_le_listMean (l : List ℚ) (h : l ≠ []) : listMin l ≤ listMean l := by
  have hlen : 0 < (l.length : ℚ) := by
    exact_mod_cast List.length_pos.mpr h
  rw [listMean, le_div_iff₀ hlen]
  have hsum : l.length • listMin l ≤ l.sum :=
    List.card_nsmul_le_sum l (listMin l) (fun x hx => listMin_le_mem hx)
  rw [nsmul_eq_mul] at hsum
  linarith

/-- Claim C5: on a rectangular P×D table with P ≥ 1, the four daily
aggregates each have length D, and pointwise min ≤ mean ≤ max. -/
theorem daily_stats_bounds (t : List (List ℚ)) (P D : ℕ) (hP : t.length = P)
    (hP1 : 1 ≤ P) (hrect : ∀ row ∈ t, row.length = D) :
    (daily_mean t).length = D ∧ (daily_max t).length = D ∧ (daily_min t).length = D ∧
    (daily_std t).length = D ∧
    (∀ d, d < D →
      (daily_min t).getD d 0 ≤ (daily_mean t).getD d 0 ∧
      (daily_mean t).getD d 0 ≤ (daily_max t).getD d 0) := by
  have hne : t ≠ [] := by
    intro h0
    rw [h0] at hP
    simp at hP
    omega
  have hD : numDays t = D := by
    cases t with
    | nil => exact absurd rfl hne
    | cons r rs => simpa [numDays] using hrect r (by simp)
  refine ⟨by simp [daily_mean, hD], by simp [daily_max, hD], by simp [daily_min, hD],
    by simp [daily_std, hD], ?_⟩
  intro d hd
  have hdn : d < numDays t := by rw [hD]; exact hd
  have hcol_ne : column t d ≠ [] := by
    have hlen : (column t d).length = P := by simp [column, hP]
    apply List.length_pos.mp
    rw [hlen]
    omega
  have hmean : (daily_mean t).getD d 0 = listMean (column t d) := by
    simp [daily_mean, List.getD_eq_getElem?_getD, List.getElem?_range hdn]
  have hmax : (daily_max t).getD d 0 = listMax (column t d) := by
    simp [daily_max, List.getD_eq_getElem?_getD, List.getElem?_range hdn]
  have hmin : (daily_min t).getD d 0 = listMin (column t d) := by
    simp [daily_min, List.getD_eq_getElem?_getD, List.getElem?_range hdn]
  rw [hmean, hmax, hmin]
  exact ⟨listMin_le_listMean _ hcol_ne, listMean_le_listMax _ hcol_ne⟩

/-- Witness for C5 at the spec's example table [[1,2],[3,4],[5,1]]. -/
theorem daily_stats_bounds_witness :
    (daily_mean [[1, 2], [3, 4], [5, 1]]).length = 2 ∧
    (daily_max [[1, 2], [3, 4], [5, 1]]).length = 2 ∧
    (daily_min [[1, 2], [3, 4], [5, 1]]).length = 2 ∧
    (daily_std [[1, 2], [3, 4], [5, 1]]).length = 2 ∧
    (∀ d, d < 2 →
      (daily_min [[1, 2], [3, 4], [5, 1]]).getD d 0 ≤
        (daily_mean [[1, 2], [3, 4], [5, 1]]).getD d 0 ∧
      (daily_mean [[1, 2], [3, 4], [5, 1]]).getD d 0 ≤
        (daily_max [[1, 2], [3, 4], [5, 1]]).getD d 0) :=
  daily_stats_bounds [[1, 2], [3, 4], [5, 1]] 3 2 rfl (by omega)
    (by
      intro row hrow
      simp only [List.mem_cons, List.not_mem_nil, or_false] at hrow
      rcases hrow with rfl | rfl | rfl <;> rfl)

/-- The reduce of `daily_above_threshold` counts the true entries. -/
theorem foldl_count (bs : List Bool) :
    ∀ n : ℕ, bs.foldl count_above_threshold n = n + bs.countP id := by
  induction bs with
  | nil =>
    intro n
    simp
  | cons b bs ih =>
    intro n
    simp only [List.foldl_cons, List.countP_cons]
    rw [ih]
    cases b
    all_goals simp [count_above_threshold]
    all_goals omega

/-- Claim C4: for a valid (non-negative) row index, `daily_above_threshold`
returns the count of entries strictly greater than the threshold; on an
all-finite row that count is 0 when the threshold is at least the row
maximum and is the row length when it is below the row minimum. -/
theorem daily_above_threshold_count (p : ℤ) (data : List (List FVal)) (t : FVal)
    (row : List FVal) (hp : 0 ≤ p) (hrow : data[p.toNat]? = some row) :
    daily_above_threshold p data t = Except.ok (row.countP (fun x => t.lt x)) ∧
    (∀ (qs : List ℚ) (tq : ℚ), row = qs.map FVal.fin → t = FVal.fin tq →
      ((listMax qs ≤ tq → row.countP (fun x => t.lt x) = 0) ∧
       (tq < listMin qs → row.countP (fun x => t.lt x) = qs.length))) := by
  constructor
  · have hnotneg : ¬ p < 0 := not_lt.mpr hp
    simp [daily_above_threshold, pyGet, hnotneg, hp, hrow, foldl_count, List.countP_map,
      Function.comp]
  · rintro qs tq rfl rfl
    constructor
    · intro hmax
      apply List.countP_eq_zero.mpr
      intro x hx
      obtain ⟨q, hq, rfl⟩ := List.mem_map.mp hx
      simp only [FVal.lt, decide_eq_true_eq]
      exact not_lt.mpr (le_trans (mem_le_listMax hq) hmax)
    · intro hmin
      rw [← List.length_map qs FVal.fin]
      apply List.countP_eq_length.mpr
      intro x hx
      obtain ⟨q, hq, rfl⟩ := List.mem_map.mp hx
      simp only [FVal.lt, decide_eq_true_eq]
      exact lt_of_lt_of_le hmin (listMin_le_mem hq)

/-- Witness for C4 at the spec's example: patient 0 of [[1,2,3,4,5]] with
threshold 3 gets the strict count (which is 2). -/
theorem daily_above_threshold_count_witness :
    daily_above_threshold 0 [[FVal.fin 1, FVal.fin 2, FVal.fin 3, FVal.fin 4, FVal.fin 5]]
        (FVal.fin 3) =
      Except.ok (([FVal.fin 1, FVal.fin 2, FVal.fin 3, FVal.fin 4, FVal.fin 5]).countP
        (fun x => (FVal.fin 3).lt x)) :=
  (daily_above_threshold_count 0 [[FVal.fin 1, FVal.fin 2, FVal.fin 3, FVal.fin 4, FVal.fin 5]]
    (FVal.fin 3) [FVal.fin 1, FVal.fin 2, FVal.fin 3, FVal.fin 4, FVal.fin 5]
    (by decide) rfl).1

/-- Counterexample to Claim C7: the index -1 is outside `0 ≤ i < 1`, yet
`daily_above_threshold (-1) [[1]] 0` returns the count 1 (Python negative
indexing counts from the end) instead of failing with an index error. -/
theorem daily_above_threshold_neg_index :
    ¬ (0 ≤ (-1 : ℤ)) ∧
    daily_above_threshold (-1) [[FVal.fin 1]] (FVal.fin 0) = Except.ok 1 := by
  constructor
  · decide
  · norm_num [daily_above_threshold, pyGet, count_above_threshold, FVal.lt]

/-- Claim C7 as amended: `daily_above_threshold` fails with IndexError
exactly when the index is outside Python's valid range `[-P, P)`, i.e.
when `patient_num < -P` or `patient_num ≥ P`. -/
theorem daily_above_threshold_oob (p : ℤ) (data : List (List FVal)) (t : FVal)
    (h : p < -(data.length : ℤ) ∨ (data.length : ℤ) ≤ p) :
    daily_above_threshold p data t = Except.error Err.indexError := by
  rcases h with h | h
  · have hneg : p < 0 := by omega
    have hj : ¬ (0 ≤ p + (data.length : ℤ)) := by omega
    simp [daily_above_threshold, pyGet, hneg, hj]
  · have hnneg : ¬ p < 0 := by omega
    have hge : data.length ≤ p.toNat := by omega
    simp [daily_above_threshold, pyGet, hnneg, not_lt.mp hnneg,
      List.getElem?_eq_none hge]

/-- Witness for the amended C7: index 5 into a 1-row table is an error. -/
theorem daily_above_threshold_oob_witness :
    daily_above_threshold 5 [[FVal.fin 1]] (FVal.fin 0) = Except.error Err.indexError :=
  daily_above_threshold_oob 5 [[FVal.fin 1]] (FVal.fin 0) (by decide)

/-- Claim C8: `add_observation` with no day appends one observation whose
value is the given value and whose day is the previous last day + 1, or 0
for a fresh patient, and returns exactly that observation; in particular
Alice's two auto-day observations get days [0,1], values [5,7], and
`last_observation` value 7. -/
theorem add_observation_auto_day :
    (∀ (p : Patient) (v : ℚ),
      (p.add_observation v none).1.observations =
        p.observations ++ [(p.add_observation v none).2] ∧
      (p.add_observation v none).2.value = v ∧
      (p.add_observation v none).2.day =
        (match p.observations.getLast? with
         | some o => o.day + 1
         | none => 0)) ∧
    ((((Patient.make "Alice" none).add_observation 5 none).1.add_observation 7
        none).1.observations.map Observation.day = [0, 1] ∧
     (((Patient.make "Alice" none).add_observation 5 none).1.add_observation 7
        none).1.observations.map Observation.value = [5, 7] ∧
     (((Patient.make "Alice" none).add_observation 5 none).1.add_observation 7
        none).1.last_observation = Except.ok ⟨1, 7⟩) := by
  refine ⟨fun p v => ⟨rfl, rfl, rfl⟩, rfl, rfl, rfl⟩

/-- Claim C9: `add_patient` appends exactly when no existing patient has
the same name (case-sensitive), is a no-op otherwise, preserves
name-uniqueness of the list, and two different instances named "Bob"
leave the list at length 1. -/
theorem add_patient_dedup :
    (∀ (d : Doctor) (p : Patient), (∀ q ∈ d.patients, q.name ≠ p.name) →
      (d.add_patient p).patients = d.patients ++ [p]) ∧
    (∀ (d : Doctor) (p : Patient), (∃ q ∈ d.patients, q.name = p.name) →
      d.add_patient p = d) ∧
    (∀ (d : Doctor) (p : Patient), (d.patients.map (fun q => q.name)).Nodup →
      ((d.add_patient p).patients.map (fun q => q.name)).Nodup) ∧
    ((((Doctor.mk ⟨"D"⟩ []).add_patient (Patient.mk ⟨"Bob"⟩ [])).add_patient
        (Patient.mk ⟨"Bob"⟩ [⟨0, 1⟩])).patients.length = 1 ∧
      (Patient.mk ⟨"Bob"⟩ []) ≠ (Patient.mk ⟨"Bob"⟩ [⟨0, 1⟩])) := by
  have happend : ∀ (d : Doctor) (p : Patient), (∀ q ∈ d.patients, q.name ≠ p.name) →
      (d.add_patient p).patients = d.patients ++ [p] := by
    intro d p h
    have hany : d.patients.any (fun q => q.name == p.name) = false :=
      List.any_eq_false.mpr (fun q hq => by simp [h q hq])
    simp [Doctor.add_patient, hany]
  have hskip : ∀ (d : Doctor) (p : Patient), (∃ q ∈ d.patients, q.name = p.name) →
      d.add_patient p = d := by
    rintro d p ⟨q, hq, hname⟩
    have hany : d.patients.any (fun r => r.name == p.name) = true :=
      List.any_eq_true.mpr ⟨q, hq, by simp [hname]⟩
    simp [Doctor.add_patient, hany]
  refine ⟨happend, hskip, ?_, by rfl, by simp⟩
  intro d p hnodup
  by_cases hex : ∃ q ∈ d.patients, q.name = p.name
  · rw [hskip d p hex]
    exact hnodup
  · push_neg at hex
    rw [happend d p hex]
    simp only [List.map_append, List.map_cons, List.map_nil]
    rw [List.nodup_append]
    refine ⟨hnodup, List.nodup_singleton _, ?_⟩
    intro x hx
    obtain ⟨q, hq, rfl⟩ := List.mem_map.mp hx
    simp only [List.mem_singleton]
    exact hex q hq

/-- Witness for C9: appending "Bob" to an empty doctor list appends. -/
theorem add_patient_dedup_witness :
    ((Doctor.mk ⟨"D"⟩ []).add_patient (Patient.mk ⟨"Bob"⟩ [])).patients =
      [] ++ [Patient.mk ⟨"Bob"⟩ []] :=
  add_patient_dedup.1 (Doctor.mk ⟨"D"⟩ []) (Patient.mk ⟨"Bob"⟩ []) (by simp)

/-- Counterexample to Claim C10: explicit day arguments are appended
unchecked, so add_observation(1, day=5) then add_observation(2, day=0)
leaves the days [5, 0], which is not non-decreasing. -/
theorem observations_not_sorted_with_explicit_days :
    ((((Patient.make "x" none).add_observation 1 (some 5)).1.add_observation 2
        (some 0)).1.observations.map Observation.day = [5, 0]) ∧
    ¬ List.Sorted (· ≤ ·)
      ((((Patient.make "x" none).add_observation 1 (some 5)).1.add_observation 2
          (some 0)).1.observations.map Observation.day) := by
  constructor
  · rfl
  · intro hs
    rw [show (((Patient.make "x" none).add_observation 1 (some 5)).1.add_observation 2
        (some 0)).1.observations.map Observation.day = [5, 0] from rfl] at hs
    have h2 := List.rel_of_sorted_cons hs 0 (by simp)
    omega

/-- In a sorted list, every member is at most the last element. -/
theorem sorted_le_getLast :
    ∀ (l : List ℤ), List.Sorted (· ≤ ·) l → ∀ m, l.getLast? = some m →
      ∀ x ∈ l, x ≤ m := by
  intro l
  induction l with
  | nil =>
    intro _ m hm
    simp at hm
  | cons a l2 ih =>
    intro hs m hm x hx
    cases l2 with
    | nil =>
      simp at hm hx
      omega
    | cons b l3 =>
      rw [List.getLast?_cons_cons] at hm
      rcases List.mem_cons.mp hx with rfl | hx2
      · have hmem : m ∈ b :: l3 := List.mem_of_mem_getLast? hm
        exact (List.sorted_cons.mp hs).1 m hmem
      · exact ih (List.sorted_cons.mp hs).2 m hm x hx2

/-- Claim C10 as amended: the days are non-decreasing as long as no
explicit day argument is used — an auto-day append preserves sortedness
(and a fresh patient starts sorted). -/
theorem add_observation_preserves_sorted (p : Patient) (v : ℚ)
    (h : List.Sorted (· ≤ ·) (p.observations.map Observation.day)) :
    List.Sorted (· ≤ ·) (((p.add_observation v none).1.observations).map Observation.day) := by
  cases hl : p.observations.getLast? with
  | none =>
    have hnil : p.observations = [] := by
      cases hobs : p.observations with
      | nil => rfl
      | cons o os =>
        rw [hobs] at hl
        simp [List.getLast?] at hl
    simp [Patient.add_observation, hnil]
  | some o =>
    have hobs : (p.add_observation v none).1.observations =
        p.observations ++ [⟨o.day + 1, v⟩] := by
      simp [Patient.add_observation, hl]
    rw [hobs, List.map_append]
    refine List.pairwise_append.mpr ⟨h, by simp, ?_⟩
    intro x hx y hy
    simp only [List.map_cons, List.map_nil, List.mem_singleton] at hy
    subst hy
    have hlast : (p.observations.map Observation.day).getLast? = some o.day := by
      rw [List.getLast?_map, hl]
      rfl
    have hxle : x ≤ o.day := sorted_le_getLast _ h o.day hlast x hx
    omega

/-- Witness for the amended C10: one auto-day append to a fresh patient
leaves the days sorted. -/
theorem add_observation_preserves_sorted_witness :
    List.Sorted (· ≤ ·)
      ((((Patient.make "x" none).add_observation 5 none).1.observations).map
        Observation.day) :=
  add_observation_preserves_sorted (Patient.make "x" none) 5 (by simp [Patient.make])
